import Mathlib

/-!
Verification of the streaming alignment, labeling and windowing pipeline of
the nilmtk-sandbox repository.  The definitions below are a shallow
embedding of the Python source files `src/time_series_uk_dale.py` and
`src/data/generator.py`.
-/

namespace Debounce

/-- Embeds `status_changes = appliance_status.diff().fillna(0)`: the pandas
diff of the integer status series, with the leading NaN replaced by 0. -/
def diffAt (s : List ℤ) (i : ℕ) : ℤ :=
  if i = 0 then 0 else s.getD i 0 - s.getD (i - 1) 0

/-- Inclusive cumulative count of rising edges, `(status_changes == 1).cumsum()`
evaluated at index `i`. -/
def risingCount (s : List ℤ) (i : ℕ) : ℕ :=
  ((List.range (i + 1)).filter (fun j => diffAt s j = 1)).length

/-- Inclusive cumulative count of falling edges, `(status_changes == -1).cumsum()`
evaluated at index `i`. -/
def fallingCount (s : List ℤ) (i : ℕ) : ℕ :=
  ((List.range (i + 1)).filter (fun j => diffAt s j = -1)).length

/-- Embeds `on_groups = (status_changes == 1).cumsum() * appliance_status` at index `i`. -/
def onGroup (s : List ℤ) (i : ℕ) : ℤ :=
  (risingCount s i : ℤ) * s.getD i 0

/-- Embeds `on_durations = on_groups.groupby(on_groups).transform('count') * 6` at
index `i`: six seconds per sample, the group size being the number of
positions of the whole series carrying the same `on_groups` value. -/
def onDuration (s : List ℤ) (i : ℕ) : ℕ :=
  6 * ((List.range s.length).filter (fun j => onGroup s j = onGroup s i)).length

/-- Embeds `appliance_status[on_durations < min_on_duration] = 0`: the status series
after the short-on suppression step. -/
def suppress (s : List ℤ) (minOn : ℕ) : List ℤ :=
  (List.range s.length).map (fun i => if onDuration s i < minOn then 0 else s.getD i 0)

/-- Embeds `off_groups = (status_changes == -1).cumsum() * (1 - appliance_status)` at
index `i`; the falling edges come from the raw trace `s` while the mask uses
the already-suppressed trace `s1`. -/
def offGroup (s s1 : List ℤ) (i : ℕ) : ℤ :=
  (fallingCount s i : ℤ) * (1 - s1.getD i 0)

/-- Embeds `off_durations = off_groups.groupby(off_groups).transform('count') * 6` at
index `i`. -/
def offDuration (s s1 : List ℤ) (i : ℕ) : ℕ :=
  6 * ((List.range s1.length).filter (fun j => offGroup s s1 j = offGroup s s1 i)).length

/-- Embeds `appliance_status[off_durations < min_off_duration] = 1`: the short-off
bridging step applied to the suppressed trace `s1`. -/
def bridge (s s1 : List ℤ) (minOff : ℕ) : List ℤ :=
  (List.range s1.length).map (fun i => if offDuration s s1 i < minOff then 1 else s1.getD i 0)

/-- Embeds `_apply_min_durations(appliance_status, min_on_duration, min_off_duration)`:
suppression of short on-runs followed by bridging of short off-runs, both
group decompositions derived from the `diff` of the raw input trace. -/
def applyMinDurations (s : List ℤ) (minOn minOff : ℕ) : List ℤ :=
  bridge s (suppress s minOn) minOff

/-- Embeds `appliance_status = appliance_power > self.on_threshold` cast to int. -/
def toStatus (power : List ℚ) (threshold : ℚ) : List ℤ :=
  power.map (fun p => if threshold < p then 1 else 0)

/-- A trace is binary when every entry is `0` or `1`. -/
def isBinary (s : List ℤ) : Prop := ∀ x ∈ s, x = 0 ∨ x = 1

instance (s : List ℤ) : Decidable (isBinary s) := by
  unfold isBinary; infer_instance

/-- Interval `[a, b)` is a maximal run of 1s of the trace `t`. -/
def isMaximalOneRun (t : List ℤ) (a b : ℕ) : Prop :=
  a < b ∧ b ≤ t.length ∧ (∀ i, i < b → a ≤ i → t.getD i 0 = 1) ∧
    (a = 0 ∨ t.getD (a - 1) 0 ≠ 1) ∧ (b = t.length ∨ t.getD b 0 ≠ 1)

instance (t : List ℤ) (a b : ℕ) : Decidable (isMaximalOneRun t a b) := by
  unfold isMaximalOneRun; infer_instance

/-- Run-length encoding of a trace: maximal runs as (value, length) pairs. -/
def rle : List ℤ → List (ℤ × ℕ)
  | [] => []
  | x :: xs =>
    match rle xs with
    | [] => [(x, 1)]
    | (v, n) :: rest => if x = v then (v, n + 1) :: rest else (x, 1) :: (v, n) :: rest

/-- Modelled from the spec: the single-pass reference debouncer in which both
the suppression of short on-runs and the bridging of short off-runs are
decided from one and the same run-length decomposition of the raw trace
(6 seconds per sample). -/
def singlePassRef (s : List ℤ) (minOn minOff : ℕ) : List ℤ :=
  (rle s).flatMap (fun p =>
    List.replicate p.2
      (if p.1 = 1 then (if 6 * p.2 < minOn then 0 else 1)
       else if p.1 = 0 then (if 6 * p.2 < minOff then 1 else 0)
       else p.1))

end Debounce

namespace Windowing

/-- Embeds `.values.reshape(-1, 1)`: a 1-d series becomes a column of singleton rows. -/
def reshape1 (xs : List ℚ) : List (List ℚ) :=
  xs.map (fun x => [x])

/-- The window loop of `_data_generator` in `time_series_uk_dale.py`:
`for i in range(0, len(xs) - window_size + 1, window_size): yield xs[i:i+window_size]`.
The Python range is empty when `len(xs) < window_size`. -/
def dataGeneratorWindows {α : Type} (xs : List α) (wsize : ℕ) : List (List α) :=
  if wsize ≤ xs.length then
    (List.range ((xs.length - wsize) / wsize + 1)).map
      (fun k => (xs.drop (k * wsize)).take wsize)
  else []

/-- One processed chunk of `time_series_uk_dale.py`: the aligned pair of
series, each reshaped to `(-1, 1)`, sliced into consecutive windows of
`window_size` rows by the loop in `_data_generator`. -/
def processChunkWindows (chunk : List (ℚ × ℚ)) (wsize : ℕ) :
    List (List (List ℚ) × List (List ℚ)) :=
  let m := reshape1 (chunk.map Prod.fst)
  let a := reshape1 (chunk.map Prod.snd)
  (dataGeneratorWindows m wsize).zip (dataGeneratorWindows a wsize)

/-- The full window stream of the `time_series_uk_dale.py` generator: the
concatenation of every chunk's windows, in traversal order. -/
def ukDaleStream (chunks : List (List (ℚ × ℚ))) (wsize : ℕ) :
    List (List (List ℚ) × List (List ℚ)) :=
  chunks.flatMap (fun c => processChunkWindows c wsize)

/-- The window stream of `data/generator.py`: its `_data_generator` yields
each whole processed chunk (`yield self._process_data(...)`), reshaped to
`(-1, 1)`, with no window slicing. -/
def genPyStream (chunks : List (List (ℚ × ℚ))) :
    List (List (List ℚ) × List (List ℚ)) :=
  chunks.map (fun c => (reshape1 (c.map Prod.fst), reshape1 (c.map Prod.snd)))

end Windowing

namespace Generator

/-- The mutable state of a `TimeSeriesDataGenerator`: the deterministic
stream of windows that `_data_generator` produces from the dataset, and the
cursor position of the live generator object.  Resetting the generator
(`self.data_generator = self._data_generator()`) recreates the same stream
with the cursor at 0. -/
structure GenState (α : Type) where
  stream : List α
  cursor : ℕ
deriving DecidableEq

/-- One `next(self.data_generator)` guarded by the `except StopIteration`
handler of `__getitem__`: on exhaustion the generator is reset and `next`
is called once more; a second exhaustion (empty stream) escapes as `none`. -/
def pullOne {α : Type} (st : GenState α) : Option (α × GenState α) :=
  match st.stream.get? st.cursor with
  | some w => some (w, ⟨st.stream, st.cursor + 1⟩)
  | none =>
    match st.stream.get? 0 with
    | some w => some (w, ⟨st.stream, 1⟩)
    | none => none

/-- The batch loop of `__getitem__`: pull `batch_size` windows, appending
each to the batch; an escaped exhaustion aborts the whole call (`none`). -/
def getBatch {α : Type} : ℕ → GenState α → Option (List α × GenState α)
  | 0, st => some ([], st)
  | bsize + 1, st =>
    match pullOne st with
    | none => none
    | some (w, st') =>
      match getBatch bsize st' with
      | none => none
      | some (ws, st'') => some (w :: ws, st'')

/-- Embeds `__getitem__(self, index)`: the index argument appears in the Python
signature but is never read; the body only runs the batch loop. -/
def getItemIdx {α : Type} (_index : ℕ) (bsize : ℕ) (st : GenState α) :
    Option (List α × GenState α) :=
  getBatch bsize st

/-- Runs `n` consecutive `__getitem__` calls, threading the generator state. -/
def getBatches {α : Type} (bsize : ℕ) : ℕ → GenState α → Option (List (List α) × GenState α)
  | 0, st => some ([], st)
  | n + 1, st =>
    match getBatch bsize st with
    | none => none
    | some (b, st') =>
      match getBatches bsize n st' with
      | none => none
      | some (bs, st'') => some (b :: bs, st'')

end Generator

namespace Counting

/-- Embeds `_count_samples` of `data/generator.py`: per building the metadata
timeframe duration in seconds is summed, and the sum is floor-divided by
`window_size`. -/
def countSamplesGen (durations : List ℕ) (wsize : ℕ) : ℕ :=
  durations.sum / wsize

/-- Embeds `__len__` of `data/generator.py`: `total_samples // batch_size`. -/
def numBatchesGen (durations : List ℕ) (wsize bsize : ℕ) : ℕ :=
  countSamplesGen durations wsize / bsize

/-- Embeds `_count_samples` of `time_series_uk_dale.py`: per building the row count
of the first mains chunk (`next(mains.load()).shape`) is summed, and the sum
is floor-divided by `window_size`. -/
def countSamplesUk (chunkLens : List ℕ) (wsize : ℕ) : ℕ :=
  chunkLens.sum / wsize

/-- Embeds `__len__` of `time_series_uk_dale.py`: `total_samples // batch_size`. -/
def numBatchesUk (chunkLens : List ℕ) (wsize bsize : ℕ) : ℕ :=
  countSamplesUk chunkLens wsize / bsize

/-- Modelled from the spec: the claimed estimate, per-meter duration divided
by the sample period, by `window_size` and by `batch_size` (integer floor
divisions), summed over the configured buildings. -/
def specEstimate (durations : List ℕ) (period wsize bsize : ℕ) : ℕ :=
  (durations.map (fun d => d / period / wsize / bsize)).sum

end Counting

namespace Norm

/-- The value domain of the pandas statistics: a float is NaN, an infinity,
or a finite value. -/
inductive EFloat where
  | nan : EFloat
  | inf : EFloat
  | ninf : EFloat
  | fin : ℚ → EFloat
deriving DecidableEq

/-- Embeds `math.isnan`. -/
def EFloat.isnanB : EFloat → Bool
  | .nan => true
  | _ => false

/-- Embeds `math.isfinite`. -/
def EFloat.isFiniteB : EFloat → Bool
  | .fin _ => true
  | _ => false

/-- Embeds `_compute_normalization_params` of `time_series_uk_dale.py`.  The chunks
are the mains power frames collected from the training buildings; the mean
and standard deviation of their concatenation are computed by pandas (an
external collaborator) and are therefore taken here as inputs.  The code
raises when no chunk was collected, or when the computed mean or std is NaN;
otherwise it stores the two statistics unchanged. -/
def computeNormalizationParams (allTrainMainsPower : List (List EFloat))
    (meanPower stdPower : EFloat) : Except String (EFloat × EFloat) :=
  if allTrainMainsPower.isEmpty then
    .error "No training data available for normalization."
  else if meanPower.isnanB || stdPower.isnanB then
    .error "Normalization parameters contain NaN values. Check your data preprocessing steps."
  else
    .ok (meanPower, stdPower)

end Norm

namespace Debounce

theorem length_suppress (s : List ℤ) (minOn : ℕ) : (suppress s minOn).length = s.length := by
  simp [suppress]

theorem length_bridge (s s1 : List ℤ) (minOff : ℕ) : (bridge s s1 minOff).length = s1.length := by
  simp [bridge]

theorem length_applyMinDurations (s : List ℤ) (minOn minOff : ℕ) :
    (applyMinDurations s minOn minOff).length = s.length := by
  rw [applyMinDurations, length_bridge, length_suppress]

theorem getD_suppress (s : List ℤ) (minOn : ℕ) (i : ℕ) (h : i < s.length) :
    (suppress s minOn).getD i 0 = if onDuration s i < minOn then 0 else s.getD i 0 := by
  have h' : i < (suppress s minOn).length := by rw [length_suppress]; exact h
  rw [List.getD_eq_getElem _ _ h']
  simp only [suppress, List.getElem_map, List.getElem_range]

theorem getD_bridge (s s1 : List ℤ) (minOff : ℕ) (i : ℕ) (h : i < s1.length) :
    (bridge s s1 minOff).getD i 0 =
      if offDuration s s1 i < minOff then 1 else s1.getD i 0 := by
  have h' : i < (bridge s s1 minOff).length := by rw [length_bridge]; exact h
  rw [List.getD_eq_getElem _ _ h']
  simp only [bridge, List.getElem_map, List.getElem_range]

theorem getD_applyMinDurations (s : List ℤ) (minOn minOff : ℕ) (i : ℕ) (h : i < s.length) :
    (applyMinDurations s minOn minOff).getD i 0 =
      if offDuration s (suppress s minOn) i < minOff then 1
      else (suppress s minOn).getD i 0 := by
  rw [applyMinDurations]
  exact getD_bridge s (suppress s minOn) minOff i (by rw [length_suppress]; exact h)

theorem six_le_onDuration (s : List ℤ) (i : ℕ) (h : i < s.length) : 6 ≤ onDuration s i := by
  have hmem : i ∈ (List.range s.length).filter (fun j => onGroup s j = onGroup s i) := by
    simp [List.mem_filter, List.mem_range, h]
  have hpos := List.length_pos_of_mem hmem
  unfold onDuration
  omega

theorem six_le_offDuration (s s1 : List ℤ) (i : ℕ) (h : i < s1.length) :
    6 ≤ offDuration s s1 i := by
  have hmem : i ∈ (List.range s1.length).filter (fun j => offGroup s s1 j = offGroup s s1 i) := by
    simp [List.mem_filter, List.mem_range, h]
  have hpos := List.length_pos_of_mem hmem
  unfold offDuration
  omega

theorem suppress_eq_self (s : List ℤ) (minOn : ℕ) (h : minOn ≤ 6) :
    suppress s minOn = s := by
  apply List.ext_getElem (length_suppress s minOn)
  intro n h1 h2
  have hd := getD_suppress s minOn n h2
  rw [List.getD_eq_getElem _ _ h1, List.getD_eq_getElem _ _ h2] at hd
  rw [hd, if_neg (Nat.not_lt.mpr (le_trans h (six_le_onDuration s n h2)))]

theorem bridge_eq_self (s s1 : List ℤ) (minOff : ℕ) (h : minOff ≤ 6) :
    bridge s s1 minOff = s1 := by
  apply List.ext_getElem (length_bridge s s1 minOff)
  intro n h1 h2
  have hd := getD_bridge s s1 minOff n h2
  rw [List.getD_eq_getElem _ _ h1, List.getD_eq_getElem _ _ h2] at hd
  rw [hd, if_neg (Nat.not_lt.mpr (le_trans h (six_le_offDuration s s1 n h2)))]

theorem applyMinDurations_eq_self (s : List ℤ) (minOn minOff : ℕ)
    (h1 : minOn ≤ 6) (h2 : minOff ≤ 6) : applyMinDurations s minOn minOff = s := by
  rw [applyMinDurations, suppress_eq_self s minOn h1, bridge_eq_self s s minOff h2]

end Debounce

/-- C1 (counterexample): the raw trace `[0, 0]` with `min_on = 1` and
`min_off = 13` is debounced to `[1, 1]`: the whole trace is an off-run of
measured duration 12 s < 13 s, so the bridging step turns it on.  The output
has a maximal run of 1s occupying positions where the raw signal was
entirely 0, refuting the claim that no new on-runs are created. -/
theorem c1_counterexample :
    ¬ (∀ a b, Debounce.isMaximalOneRun (Debounce.applyMinDurations [0, 0] 1 13) a b →
        ((1 ≤ 6 * (b - a) ∨
          ∃ i, a ≤ i ∧ i < b ∧ (Debounce.suppress [0, 0] 1).getD i 0 = 0 ∧
            Debounce.offDuration [0, 0] (Debounce.suppress [0, 0] 1) i < 13) ∧
         ¬ (∀ i, i < b → a ≤ i → ([0, 0] : List ℤ).getD i 0 = 0))) := by
  intro h
  exact (h 0 2 (by decide)).2 (by decide)

/-- C1 (amended): every maximal run of 1s in the debounced trace either
contains a position that was off after on-suppression and whose measured
off-group duration is below `min_off` (it was produced by bridging), or
consists entirely of positions where the raw signal was 1 and whose measured
on-group duration is at least `min_on`.  The durations are the ones the code
computes (cumsum-based group size times the hard-coded 6-second period), and
bridging may create on-runs at positions where the raw signal was entirely 0. -/
theorem c1_debounce_run_invariant (s : List ℤ) (minOn minOff a b : ℕ)
    (hbin : Debounce.isBinary s)
    (hrun : Debounce.isMaximalOneRun (Debounce.applyMinDurations s minOn minOff) a b) :
    (∃ i, a ≤ i ∧ i < b ∧ (Debounce.suppress s minOn).getD i 0 = 0 ∧
        Debounce.offDuration s (Debounce.suppress s minOn) i < minOff) ∨
    (∀ i, a ≤ i → i < b → s.getD i 0 = 1 ∧ minOn ≤ Debounce.onDuration s i) := by
  obtain ⟨hab, hble, hones, -, -⟩ := hrun
  have hlen := Debounce.length_applyMinDurations s minOn minOff
  by_cases hex : ∃ i, a ≤ i ∧ i < b ∧ (Debounce.suppress s minOn).getD i 0 = 0
  · left
    obtain ⟨i, hai, hib, hs1⟩ := hex
    have hi : i < s.length := lt_of_lt_of_le hib (hlen ▸ hble)
    have hout := hones i hib hai
    rw [Debounce.getD_applyMinDurations s minOn minOff i hi] at hout
    by_cases hc : Debounce.offDuration s (Debounce.suppress s minOn) i < minOff
    · exact ⟨i, hai, hib, hs1, hc⟩
    · rw [if_neg hc, hs1] at hout
      exact absurd hout (by decide)
  · right
    push_neg at hex
    intro i hai hib
    have hi : i < s.length := lt_of_lt_of_le hib (hlen ▸ hble)
    have hs1ne := hex i hai hib
    rw [Debounce.getD_suppress s minOn i hi] at hs1ne
    by_cases hd : Debounce.onDuration s i < minOn
    · rw [if_pos hd] at hs1ne
      exact absurd rfl hs1ne
    · rw [if_neg hd] at hs1ne
      have hmem : s.getD i 0 ∈ s := by
        rw [List.getD_eq_getElem _ _ hi]
        exact List.getElem_mem hi
      rcases hbin _ hmem with h0 | h1
      · exact absurd h0 hs1ne
      · exact ⟨h1, Nat.not_lt.mp hd⟩

/-- C1 (witness): the amended invariant instantiated on the concrete bridged
trace `[0, 0]` with `min_on = 1`, `min_off = 13` and its maximal run `[0, 2)`. -/
theorem c1_debounce_run_invariant_witness :
    Debounce.isBinary [0, 0] ∧
    Debounce.isMaximalOneRun (Debounce.applyMinDurations [0, 0] 1 13) 0 2 ∧
    ((∃ i, 0 ≤ i ∧ i < 2 ∧ (Debounce.suppress [0, 0] 1).getD i 0 = 0 ∧
        Debounce.offDuration [0, 0] (Debounce.suppress [0, 0] 1) i < 13) ∨
     (∀ i, 0 ≤ i → i < 2 → ([0, 0] : List ℤ).getD i 0 = 1 ∧
        1 ≤ Debounce.onDuration [0, 0] i)) :=
  ⟨by decide, by decide,
    c1_debounce_run_invariant [0, 0] 1 13 0 2 (by decide) (by decide)⟩

/-- C2 (counterexample): the code does not equal the single-pass reference in
which both decisions come from the raw run decomposition: they differ on the
trace `[0, 1, 0, 0]` with `min_on = 12` and `min_off = 13`. -/
theorem c2_counterexample :
    ¬ (∀ (s : List ℤ) (minOn minOff : ℕ),
        Debounce.applyMinDurations s minOn minOff = Debounce.singlePassRef s minOn minOff) := by
  intro h
  exact absurd (h [0, 1, 0, 0] 12 13) (by decide)

/-- C2 (amended): the off-bridging decision is computed from the raw trace's
falling edges but masked by the trace already modified by on-suppression, so
a suppressed on-blip joins the surrounding off group.  On `[0, 1, 0, 0]` with
`min_on = 12` and `min_off = 13` the code yields `[1, 1, 1, 1]` (the
suppressed position 1 is bridged along with its neighbours) while the
single-pass reference yields `[1, 0, 1, 1]`. -/
theorem c2_off_mask_uses_suppressed_trace :
    Debounce.applyMinDurations [0, 1, 0, 0] 12 13 = [1, 1, 1, 1] ∧
    Debounce.singlePassRef [0, 1, 0, 0] 12 13 = [1, 0, 1, 1] := by decide

/-- C3 (counterexample): on raw state `[0, 0, 1, 1, 0, 0]` with
`min_on = 1` and `min_off = 10` the debouncer does not return
`[0, 0, 1, 1, 1, 1]`: the code hard-codes a 6-second sample period, so the
trailing off-run measures 12 s ≥ 10 s and is not bridged. -/
theorem c3_counterexample :
    ¬ (Debounce.toStatus [0, 0, 6, 6, 0, 0] 5 = [0, 0, 1, 1, 0, 0] ∧
       Debounce.applyMinDurations [0, 0, 1, 1, 0, 0] 1 10 = [0, 0, 1, 1, 1, 1]) := by
  decide

/-- C3 (amended): thresholding `[0, 0, 6, 6, 0, 0]` at 5 yields raw state
`[0, 0, 1, 1, 0, 0]`, and with the code's hard-coded 6-second sample period
the debouncer returns `[0, 0, 1, 1, 0, 0]` unchanged: the on-run measures
12 s ≥ 1 s and is kept, and every off group measures ≥ 12 s ≥ 10 s, so
nothing is bridged. -/
theorem c3_concrete_scenario :
    Debounce.toStatus [0, 0, 6, 6, 0, 0] 5 = [0, 0, 1, 1, 0, 0] ∧
    Debounce.applyMinDurations [0, 0, 1, 1, 0, 0] 1 10 = [0, 0, 1, 1, 0, 0] := by
  decide

/-- C4 (counterexample): debouncing is not idempotent.  On the binary trace
`[1, 1, 1, 1, 0, 0, 0, 0, 1, 0, 0]` with `min_on = min_off = 13` the first
pass suppresses the length-1 on-run and bridges the trailing off-run to
`[1, 1, 1, 1, 0, 0, 0, 0, 0, 1, 1]`; the second pass suppresses the
freshly-bridged length-2 run (12 s < 13 s) and does not re-bridge it, giving
`[1, 1, 1, 1, 0, 0, 0, 0, 0, 0, 0]`. -/
theorem c4_counterexample :
    ¬ (∀ (s : List ℤ) (minOn minOff : ℕ), Debounce.isBinary s → 0 < minOn → 0 < minOff →
        Debounce.applyMinDurations (Debounce.applyMinDurations s minOn minOff) minOn minOff =
          Debounce.applyMinDurations s minOn minOff) := by
  intro h
  exact absurd
    (h [1, 1, 1, 1, 0, 0, 0, 0, 1, 0, 0] 13 13 (by decide) (by decide) (by decide))
    (by decide)

/-- C4 (amended): debouncing is not idempotent in general (bridging can
create a short on-run that a second application suppresses); it is idempotent
whenever both minimum durations are at most the hard-coded 6-second sample
period, in which case the filter is the identity. -/
theorem c4_idempotent_small_durations (s : List ℤ) (minOn minOff : ℕ)
    (h1 : minOn ≤ 6) (h2 : minOff ≤ 6) :
    Debounce.applyMinDurations s minOn minOff = s ∧
    Debounce.applyMinDurations (Debounce.applyMinDurations s minOn minOff) minOn minOff =
      Debounce.applyMinDurations s minOn minOff := by
  have hid := Debounce.applyMinDurations_eq_self s minOn minOff h1 h2
  exact ⟨hid, by rw [hid]; exact hid⟩

/-- C4 (witness): the amended idempotence instantiated on `[0, 1, 1, 0]`
with both minimum durations equal to the 6-second sample period. -/
theorem c4_idempotent_small_durations_witness :
    Debounce.applyMinDurations [0, 1, 1, 0] 6 6 = [0, 1, 1, 0] ∧
    Debounce.applyMinDurations (Debounce.applyMinDurations [0, 1, 1, 0] 6 6) 6 6 =
      Debounce.applyMinDurations [0, 1, 1, 0] 6 6 :=
  c4_idempotent_small_durations [0, 1, 1, 0] 6 6 (le_refl 6) (le_refl 6)

namespace Windowing

theorem dataGeneratorWindows_eq_of_le {α : Type} (xs : List α) (wsize : ℕ)
    (h : wsize ≤ xs.length) :
    dataGeneratorWindows xs wsize =
      (List.range ((xs.length - wsize) / wsize + 1)).map
        (fun k => (xs.drop (k * wsize)).take wsize) := by
  rw [dataGeneratorWindows, if_pos h]

theorem length_dataGeneratorWindows {α : Type} (xs : List α) (wsize : ℕ) (hW : 0 < wsize) :
    (dataGeneratorWindows xs wsize).length = xs.length / wsize := by
  by_cases h : wsize ≤ xs.length
  · rw [dataGeneratorWindows_eq_of_le xs wsize h]
    simp only [List.length_map, List.length_range]
    exact (Nat.div_eq_sub_div hW h).symm
  · rw [dataGeneratorWindows, if_neg h]
    simp only [List.length_nil]
    exact (Nat.div_eq_of_lt (Nat.lt_of_not_le h)).symm

theorem mem_dataGeneratorWindows {α : Type} {xs : List α} {wsize : ℕ} {w : List α}
    (hW : 0 < wsize) (h : w ∈ dataGeneratorWindows xs wsize) :
    w.length = wsize ∧ ∀ x ∈ w, x ∈ xs := by
  by_cases hle : wsize ≤ xs.length
  · rw [dataGeneratorWindows_eq_of_le xs wsize hle] at h
    obtain ⟨k, hk, rfl⟩ := List.mem_map.mp h
    constructor
    · rw [List.length_take, List.length_drop]
      have hk' : k < (xs.length - wsize) / wsize + 1 := List.mem_range.mp hk
      have h1 : k ≤ (xs.length - wsize) / wsize := Nat.lt_succ_iff.mp hk'
      have h2 : k * wsize ≤ (xs.length - wsize) / wsize * wsize := Nat.mul_le_mul_right wsize h1
      have h3 := Nat.div_mul_le_self (xs.length - wsize) wsize
      exact min_eq_left (by omega)
    · intro x hx
      exact List.mem_of_mem_drop (List.mem_of_mem_take hx)
  · rw [dataGeneratorWindows, if_neg hle] at h
    exact absurd h (List.not_mem_nil w)

theorem ukDaleStream_shape (chunks : List (List (ℚ × ℚ))) (wsize : ℕ)
    (p : List (List ℚ) × List (List ℚ)) (hW : 0 < wsize) (hp : p ∈ ukDaleStream chunks wsize) :
    p.1.length = wsize ∧ p.2.length = wsize ∧
      (∀ r ∈ p.1, r.length = 1) ∧ ∀ r ∈ p.2, r.length = 1 := by
  obtain ⟨c, -, hpc⟩ := List.mem_flatMap.mp hp
  obtain ⟨m, a⟩ := p
  rw [processChunkWindows] at hpc
  obtain ⟨hm, ha⟩ := List.of_mem_zip hpc
  have r1 := mem_dataGeneratorWindows hW hm
  have r2 := mem_dataGeneratorWindows hW ha
  refine ⟨r1.1, r2.1, ?_, ?_⟩
  · intro r hr
    have hrm := r1.2 r hr
    rw [reshape1] at hrm
    obtain ⟨x, -, hx⟩ := List.mem_map.mp hrm
    rw [← hx]
    rfl
  · intro r hr
    have hrm := r2.2 r hr
    rw [reshape1] at hrm
    obtain ⟨x, -, hx⟩ := List.mem_map.mp hrm
    rw [← hx]
    rfl

end Windowing

/-- C5: for a series of length `L` and positive `window_size`, the window
loop of `_data_generator` yields exactly `L / window_size` windows, window
`k` being the slice `[k*window_size, (k+1)*window_size)`, of length exactly
`window_size`; trailing samples are dropped and a series shorter than one
window yields zero windows. -/
theorem c5_window_segmentation {α : Type} (xs : List α) (wsize : ℕ) (hW : 0 < wsize) :
    (Windowing.dataGeneratorWindows xs wsize).length = xs.length / wsize ∧
    ∀ k, k < xs.length / wsize →
      (Windowing.dataGeneratorWindows xs wsize).getD k [] =
        (xs.drop (k * wsize)).take wsize ∧
      ((xs.drop (k * wsize)).take wsize).length = wsize := by
  have hlen := Windowing.length_dataGeneratorWindows xs wsize hW
  refine ⟨hlen, ?_⟩
  intro k hk
  have hle : wsize ≤ xs.length := by
    by_contra hnot
    rw [Nat.div_eq_of_lt (Nat.lt_of_not_le hnot)] at hk
    exact absurd hk (Nat.not_lt_zero k)
  have hk' : k < (Windowing.dataGeneratorWindows xs wsize).length := by rw [hlen]; exact hk
  have hkslice : (Windowing.dataGeneratorWindows xs wsize).getD k [] =
      (xs.drop (k * wsize)).take wsize := by
    rw [List.getD_eq_getElem _ _ hk']
    have heq := Windowing.dataGeneratorWindows_eq_of_le xs wsize hle
    have hk2 : k < ((List.range ((xs.length - wsize) / wsize + 1)).map
        (fun k => (xs.drop (k * wsize)).take wsize)).length := by
      rw [← heq]; exact hk'
    rw [List.getElem_of_eq heq hk']
    simp only [List.getElem_map, List.getElem_range]
  refine ⟨hkslice, ?_⟩
  have hmem : (xs.drop (k * wsize)).take wsize ∈ Windowing.dataGeneratorWindows xs wsize := by
    rw [← hkslice, List.getD_eq_getElem _ _ hk']
    exact List.getElem_mem hk'
  exact (Windowing.mem_dataGeneratorWindows hW hmem).1

/-- C5 (witness): the spec's concrete scenario, `window_size = 4` on a series
of length 10, yielding exactly 2 windows of 4 samples each. -/
theorem c5_window_segmentation_witness :
    (0 : ℕ) < 4 ∧
    ((Windowing.dataGeneratorWindows ([0, 1, 2, 3, 4, 5, 6, 7, 8, 9] : List ℚ) 4).length =
        ([0, 1, 2, 3, 4, 5, 6, 7, 8, 9] : List ℚ).length / 4 ∧
      ∀ k, k < ([0, 1, 2, 3, 4, 5, 6, 7, 8, 9] : List ℚ).length / 4 →
        (Windowing.dataGeneratorWindows ([0, 1, 2, 3, 4, 5, 6, 7, 8, 9] : List ℚ) 4).getD k [] =
          ((([0, 1, 2, 3, 4, 5, 6, 7, 8, 9] : List ℚ).drop (k * 4)).take 4) ∧
        ((([0, 1, 2, 3, 4, 5, 6, 7, 8, 9] : List ℚ).drop (k * 4)).take 4).length = 4) :=
  ⟨by decide, c5_window_segmentation ([0, 1, 2, 3, 4, 5, 6, 7, 8, 9] : List ℚ) 4 (by decide)⟩

namespace Generator

theorem pullOne_some {α : Type} (st : GenState α) (h : st.stream ≠ []) :
    ∃ w st', pullOne st = some (w, st') ∧ st'.stream = st.stream ∧ w ∈ st.stream := by
  cases hget : st.stream.get? st.cursor with
  | some w =>
    refine ⟨w, ⟨st.stream, st.cursor + 1⟩, ?_, rfl, List.get?_mem hget⟩
    rw [pullOne, hget]
  | none =>
    obtain ⟨x, xs, hxs⟩ := List.exists_cons_of_ne_nil h
    refine ⟨x, ⟨st.stream, 1⟩, ?_, rfl, ?_⟩
    · rw [pullOne, hget, hxs]
      rfl
    · rw [hxs]
      exact List.mem_cons_self x xs

theorem pullOne_stream {α : Type} (st : GenState α) (w : α) (st' : GenState α)
    (h : pullOne st = some (w, st')) : st'.stream = st.stream := by
  rw [pullOne] at h
  cases hget : st.stream.get? st.cursor with
  | some v =>
    rw [hget] at h
    simp only [Option.some.injEq, Prod.mk.injEq] at h
    rw [← h.2]
  | none =>
    rw [hget] at h
    cases hget0 : st.stream.get? 0 with
    | some v =>
      rw [hget0] at h
      simp only [Option.some.injEq, Prod.mk.injEq] at h
      rw [← h.2]
    | none =>
      rw [hget0] at h
      exact absurd h (by simp)

theorem getBatch_some {α : Type} (bsize : ℕ) (st : GenState α) (h : st.stream ≠ []) :
    ∃ ws st', getBatch bsize st = some (ws, st') ∧ ws.length = bsize ∧
      st'.stream = st.stream ∧ ∀ w ∈ ws, w ∈ st.stream := by
  induction bsize generalizing st with
  | zero => exact ⟨[], st, rfl, rfl, rfl, by simp⟩
  | succ n ih =>
    obtain ⟨w, st1, hp, hs1, hm⟩ := pullOne_some st h
    obtain ⟨ws, st2, hg, hl, hs2, hms⟩ := ih st1 (by rw [hs1]; exact h)
    refine ⟨w :: ws, st2, ?_, by simp [hl], by rw [hs2, hs1], ?_⟩
    · simp only [getBatch, hp, hg]
    · intro x hx
      rcases List.mem_cons.mp hx with rfl | hx'
      · exact hm
      · exact hs1 ▸ hms x hx'

theorem getBatch_stream {α : Type} (bsize : ℕ) :
    ∀ (st : GenState α) ws st', getBatch bsize st = some (ws, st') → st'.stream = st.stream := by
  induction bsize with
  | zero =>
    intro st ws st' h
    rw [getBatch] at h
    simp only [Option.some.injEq, Prod.mk.injEq] at h
    rw [← h.2]
  | succ n ih =>
    intro st ws st' h
    cases hp : pullOne st with
    | none =>
      simp only [getBatch, hp] at h
      exact absurd h (by simp)
    | some p =>
      obtain ⟨w, st1⟩ := p
      cases hg : getBatch n st1 with
      | none =>
        simp only [getBatch, hp, hg] at h
        exact absurd h (by simp)
      | some q =>
        obtain ⟨ws1, st2⟩ := q
        simp only [getBatch, hp, hg, Option.some.injEq, Prod.mk.injEq] at h
        rw [← h.2]
        rw [ih st1 ws1 st2 hg, pullOne_stream st w st1 hp]

end Generator

/-- C6: for an assembler whose underlying window stream is non-empty, every
one of `N` consecutive batch fetches succeeds (no exhaustion escapes: the
cursor wraps to the start of the traversal) and returns a complete batch of
exactly `batch_size` windows. -/
theorem c6_no_partial_batches (α : Type) (bsize numFetches : ℕ) (st : Generator.GenState α)
    (h : st.stream ≠ []) :
    ∃ bs st', Generator.getBatches bsize numFetches st = some (bs, st') ∧
      bs.length = numFetches ∧ ∀ b ∈ bs, b.length = bsize := by
  induction numFetches generalizing st with
  | zero => exact ⟨[], st, rfl, rfl, by simp⟩
  | succ n ih =>
    obtain ⟨ws, st1, hg, hl, hs1, -⟩ := Generator.getBatch_some bsize st h
    obtain ⟨bs, st2, hgs, hbl, hall⟩ := ih st1 (by rw [hs1]; exact h)
    refine ⟨ws :: bs, st2, ?_, by simp [hbl], ?_⟩
    · simp only [Generator.getBatches, hg, hgs]
    · intro b hb
      rcases List.mem_cons.mp hb with rfl | hb'
      · exact hl
      · exact hall b hb'

/-- C6 (witness): `batches_per_epoch + 3` consecutive fetches of batches of
2 windows from a 3-window stream all succeed and are all complete, with
`batches_per_epoch` the reported epoch length for durations `[12]`,
`window_size = 2`, `batch_size = 2`. -/
theorem c6_no_partial_batches_witness :
    (([10, 20, 30] : List ℕ) ≠ []) ∧
    ∃ bs st', Generator.getBatches 2 (Counting.numBatchesGen [12] 2 2 + 3)
        (⟨[10, 20, 30], 0⟩ : Generator.GenState ℕ) = some (bs, st') ∧
      bs.length = Counting.numBatchesGen [12] 2 2 + 3 ∧ ∀ b ∈ bs, b.length = 2 :=
  ⟨by decide,
    c6_no_partial_batches ℕ 2 (Counting.numBatchesGen [12] 2 2 + 3) ⟨[10, 20, 30], 0⟩
      (by decide)⟩

/-- C8 (counterexample): the `data/generator.py` variant yields whole
processed chunks, not windows: with a processed chunk of 3 aligned samples
and `window_size = 2`, the fetched batch's mains element has length 3, not
`window_size`. -/
theorem c8_counterexample :
    Generator.getBatch 1
        (⟨Windowing.genPyStream [[(0, 0), (0, 0), (0, 0)]], 0⟩ :
          Generator.GenState (List (List ℚ) × List (List ℚ))) =
      some ([([[0], [0], [0]], [[0], [0], [0]])],
        ⟨Windowing.genPyStream [[(0, 0), (0, 0), (0, 0)]], 1⟩) ∧
    ([[0], [0], [0]] : List (List ℚ)).length ≠ 2 :=
  ⟨rfl, by decide⟩

/-- C8 (amended): in the `time_series_uk_dale.py` variant every batch fetch
from a non-empty window stream returns exactly `batch_size` window pairs of
shape `(window_size, 1)` for mains and for appliance, i.e. two stacked arrays
of shape `(batch_size, window_size, 1)`; the `data/generator.py` variant
instead yields whole processed chunks whose length is the chunk length. -/
theorem c8_batch_shape (chunks : List (List (ℚ × ℚ))) (wsize bsize : ℕ)
    (st : Generator.GenState (List (List ℚ) × List (List ℚ))) (hW : 0 < wsize)
    (hst : st.stream = Windowing.ukDaleStream chunks wsize) (hne : st.stream ≠ []) :
    ∃ bs st', Generator.getBatch bsize st = some (bs, st') ∧ bs.length = bsize ∧
      ∀ p ∈ bs, p.1.length = wsize ∧ p.2.length = wsize ∧
        (∀ r ∈ p.1, r.length = 1) ∧ ∀ r ∈ p.2, r.length = 1 := by
  obtain ⟨ws, st', hg, hl, -, hmem⟩ := Generator.getBatch_some bsize st hne
  refine ⟨ws, st', hg, hl, ?_⟩
  intro p hp
  exact Windowing.ukDaleStream_shape chunks wsize p hW (hst ▸ hmem p hp)

/-- C8 (witness): the batch-shape contract instantiated on one chunk of two
aligned samples, `window_size = 1`, `batch_size = 3` (the 3-window batch
wraps around the 2-window stream). -/
theorem c8_batch_shape_witness :
    (0 : ℕ) < 1 ∧
    ∃ bs st', Generator.getBatch 3
        (⟨Windowing.ukDaleStream [[(1, 2), (3, 4)]] 1, 0⟩ :
          Generator.GenState (List (List ℚ) × List (List ℚ))) = some (bs, st') ∧
      bs.length = 3 ∧
      ∀ p ∈ bs, p.1.length = 1 ∧ p.2.length = 1 ∧
        (∀ r ∈ p.1, r.length = 1) ∧ ∀ r ∈ p.2, r.length = 1 :=
  ⟨by decide,
    c8_batch_shape [[(1, 2), (3, 4)]] 1 3 ⟨Windowing.ukDaleStream [[(1, 2), (3, 4)]] 1, 0⟩
      (by decide) rfl (by decide)⟩

/-- C9 (counterexample): the reported epoch length is not the spec's
per-meter estimate `duration // sample_period // window_size // batch_size`
summed over buildings: for one building of 12 metadata seconds, sample
period 6, `window_size = 2`, `batch_size = 1`, the code reports
`12 // 2 // 1 = 6` while the claimed estimate is `12 // 6 // 2 // 1 = 1`. -/
theorem c9_counterexample :
    Counting.numBatchesGen [12] 2 1 ≠ Counting.specEstimate [12] 6 2 1 := by decide

/-- C9 (amended): both variants report
`batches_per_epoch = (sum of per-building values) // window_size // batch_size
= total // (window_size * batch_size)`, where the per-building value is the
metadata duration in seconds (`data/generator.py`) or the first mains
chunk's row count (`time_series_uk_dale.py`); no division by the sample
period is performed, and the sum is taken before the floor divisions. -/
theorem c9_epoch_length (vals : List ℕ) (wsize bsize : ℕ) :
    Counting.numBatchesGen vals wsize bsize = vals.sum / (wsize * bsize) ∧
    Counting.numBatchesUk vals wsize bsize = vals.sum / (wsize * bsize) := by
  constructor
  · rw [Counting.numBatchesGen, Counting.countSamplesGen, Nat.div_div_eq_div_mul]
  · rw [Counting.numBatchesUk, Counting.countSamplesUk, Nat.div_div_eq_div_mul]

/-- C7 (counterexample): `_compute_normalization_params` does not raise on an
infinite statistic: with one non-empty training chunk and a pandas mean of
`+inf` (std 1), the code succeeds and stores the infinite mean, so raising is
not equivalent to "no samples or NaN or infinite" and the stored parameters
are not guaranteed finite. -/
theorem c7_counterexample :
    ¬ (((∃ e, Norm.computeNormalizationParams [[Norm.EFloat.fin 1]] Norm.EFloat.inf
            (Norm.EFloat.fin 1) = .error e) ↔
        (([[Norm.EFloat.fin 1]] : List (List Norm.EFloat)).isEmpty = true ∨
         (Norm.EFloat.inf).isnanB = true ∨ (Norm.EFloat.fin 1).isnanB = true ∨
         (Norm.EFloat.inf).isFiniteB = false ∨ (Norm.EFloat.fin 1).isFiniteB = false)) ∧
       ∀ m s, Norm.computeNormalizationParams [[Norm.EFloat.fin 1]] Norm.EFloat.inf
           (Norm.EFloat.fin 1) = .ok (m, s) →
         m.isFiniteB = true ∧ s.isFiniteB = true) := by
  intro h
  have := (h.2 Norm.EFloat.inf (Norm.EFloat.fin 1) rfl).1
  exact absurd this (by decide)

/-- C7 (amended): `_compute_normalization_params` raises if and only if no
training chunk was collected or the pandas mean or std is NaN; when it
succeeds it stores exactly the computed statistics, which are non-NaN but
not necessarily finite (there is no infinity check). -/
theorem c7_normalization_validation (chunks : List (List Norm.EFloat))
    (meanPower stdPower : Norm.EFloat) :
    ((∃ e, Norm.computeNormalizationParams chunks meanPower stdPower = .error e) ↔
      (chunks.isEmpty = true ∨ meanPower.isnanB = true ∨ stdPower.isnanB = true)) ∧
    ∀ m s, Norm.computeNormalizationParams chunks meanPower stdPower = .ok (m, s) →
      m = meanPower ∧ s = stdPower ∧ m.isnanB = false ∧ s.isnanB = false := by
  rw [Norm.computeNormalizationParams]
  by_cases h1 : chunks.isEmpty
  · rw [if_pos h1]
    constructor
    · exact ⟨fun _ => Or.inl h1, fun _ => ⟨_, rfl⟩⟩
    · intro m s h
      exact absurd h (by simp)
  · rw [if_neg h1]
    by_cases h2 : (meanPower.isnanB || stdPower.isnanB) = true
    · rw [if_pos h2]
      constructor
      · refine ⟨fun _ => ?_, fun _ => ⟨_, rfl⟩⟩
        rcases Bool.or_eq_true_iff.mp h2 with hm | hs
        · exact Or.inr (Or.inl hm)
        · exact Or.inr (Or.inr hs)
      · intro m s h
        exact absurd h (by simp)
    · rw [if_neg h2]
      have hnot := Bool.or_eq_false_iff.mp (Bool.not_eq_true _ |>.mp h2)
      constructor
      · constructor
        · intro ⟨e, he⟩
          exact absurd he (by simp)
        · intro hor
          rcases hor with he | hm | hs
          · exact absurd he h1
          · rw [hm] at hnot
            exact absurd hnot.1 (by decide)
          · rw [hs] at hnot
            exact absurd hnot.2 (by decide)
      · intro m s h
        simp only [Except.ok.injEq, Prod.mk.injEq] at h
        exact ⟨h.1.symm, h.2.symm, h.1 ▸ hnot.1, h.2 ▸ hnot.2⟩

/-- C7 (witness): the validation characterization instantiated on one finite
chunk with finite statistics. -/
theorem c7_normalization_validation_witness :
    ((∃ e, Norm.computeNormalizationParams [[Norm.EFloat.fin 2]] (Norm.EFloat.fin 0)
          (Norm.EFloat.fin 1) = .error e) ↔
      (([[Norm.EFloat.fin 2]] : List (List Norm.EFloat)).isEmpty = true ∨
       (Norm.EFloat.fin 0).isnanB = true ∨ (Norm.EFloat.fin 1).isnanB = true)) ∧
    ∀ m s, Norm.computeNormalizationParams [[Norm.EFloat.fin 2]] (Norm.EFloat.fin 0)
        (Norm.EFloat.fin 1) = .ok (m, s) →
      m = Norm.EFloat.fin 0 ∧ s = Norm.EFloat.fin 1 ∧ m.isnanB = false ∧ s.isnanB = false :=
  c7_normalization_validation [[Norm.EFloat.fin 2]] (Norm.EFloat.fin 0) (Norm.EFloat.fin 1)

/-- C10 (counterexample): successive fetches with the same index need not
return different batches: on a one-window stream with `batch_size = 1` the
second fetch wraps the cursor and returns the identical batch. -/
theorem c10_counterexample :
    ∃ b1 st1 b2 st2,
      Generator.getItemIdx 0 1 (⟨[[(1 : ℚ)]], 0⟩ : Generator.GenState (List ℚ)) =
        some (b1, st1) ∧
      Generator.getItemIdx 0 1 st1 = some (b2, st2) ∧ b1 = b2 :=
  ⟨[[(1 : ℚ)]], ⟨[[(1 : ℚ)]], 1⟩, [[(1 : ℚ)]], ⟨[[(1 : ℚ)]], 1⟩, rfl, rfl, rfl⟩

/-- C10 (amended): the batch fetch ignores its index argument: whenever a
fetch from a given traversal state returns a batch and successor state, a
fetch with any other index returns the identical pair, and the successor
state differs from the original only in the cursor (the stream is
unchanged); successive fetches thus return the batches at successive cursor
positions, which can coincide after wrap-around. -/
theorem c10_index_ignored {α : Type} (i j bsize : ℕ) (st : Generator.GenState α)
    (b : List α) (st' : Generator.GenState α)
    (h : Generator.getItemIdx i bsize st = some (b, st')) :
    Generator.getItemIdx j bsize st = some (b, st') ∧ st'.stream = st.stream :=
  ⟨h, Generator.getBatch_stream bsize st b st' h⟩

/-- C10 (witness): index-irrelevance instantiated on a one-window stream:
the fetch with index 5 returns exactly what the fetch with index 0 did. -/
theorem c10_index_ignored_witness :
    Generator.getItemIdx 5 1 (⟨[[(1 : ℚ)]], 0⟩ : Generator.GenState (List ℚ)) =
      some ([[(1 : ℚ)]], ⟨[[(1 : ℚ)]], 1⟩) ∧
    ((⟨[[(1 : ℚ)]], 1⟩ : Generator.GenState (List ℚ))).stream =
      ((⟨[[(1 : ℚ)]], 0⟩ : Generator.GenState (List ℚ))).stream :=
  c10_index_ignored 0 5 1 ⟨[[(1 : ℚ)]], 0⟩ [[(1 : ℚ)]] ⟨[[(1 : ℚ)]], 1⟩ rfl
